import Mathlib

/-!
Verification of the archive-rewrite engine of `ptkrm/zipor` (`src/app.py`).

The program mutates entries inside an existing ZIP archive: it copies every
entry of the source archive except the target path into a staging archive
(`<archive>.tmp`), appends the new or replacement entry, and atomically
replaces the original file (`os.replace`).  Entry content is read through
Python's `zipfile` module, whose name-to-entry map is built by dictionary
assignment in central-directory order, so a lookup by name returns the LAST
entry carrying that name.

The embedding below models:
  * bytes as `List Nat`, UTF-8 encoding/decoding as Python's `str.encode` /
    `bytes.decode` (strict and `errors='replace'` modes);
  * a ZIP entry as the metadata the central directory carries plus its
    decompressed content;
  * the file system as an association list from paths to file data, where a
    file is either a structurally valid archive or unparseable bytes;
  * the four operations the claims are about: `create_file_in_zip`,
    `create_symlink_in_zip`, `view_file_in_zip` and `is_symlink_in_zip`.

Faithfulness notes, recorded where they matter:
  * the program runs on a POSIX platform, so `zipfile.ZipInfo` defaults
    `create_system = 3`;
  * `os.replace` may raise; the boolean `replaceFails` argument injects that
    fault so the cleanup paths of the `except` handlers are part of the model;
  * the current time used by `writestr` for a fresh entry is passed in as the
    `now` argument.
-/

/-- UTF-8 encoding of one unicode scalar value, as Python's `str.encode("utf-8")`
produces it, written with division and remainder in place of bit shifts. -/
def utf8EncodeChar (c : Char) : List Nat :=
  if c.toNat < 0x80 then [c.toNat]
  else if c.toNat < 0x800 then [0xC0 + c.toNat / 0x40, 0x80 + c.toNat % 0x40]
  else if c.toNat < 0x10000 then
    [0xE0 + c.toNat / 0x1000, 0x80 + c.toNat / 0x40 % 0x40,
      0x80 + c.toNat % 0x40]
  else
    [0xF0 + c.toNat / 0x40000, 0x80 + c.toNat / 0x1000 % 0x40,
      0x80 + c.toNat / 0x40 % 0x40, 0x80 + c.toNat % 0x40]

/-- UTF-8 encoding of a character list. -/
def utf8EncodeList : List Char → List Nat
  | [] => []
  | c :: cs => utf8EncodeChar c ++ utf8EncodeList cs

/-- UTF-8 encoding of a string, as Python's `str.encode("utf-8")`. -/
def utf8Encode (s : String) : List Nat :=
  utf8EncodeList s.data

/-- Smallest admissible second byte after lead byte `b0` of a three-byte
sequence (`0xE0` forbids overlong encodings). -/
def utf8Low3 (b0 : Nat) : Nat := if b0 = 0xE0 then 0xA0 else 0x80

/-- One past the largest admissible second byte after lead byte `b0` of a
three-byte sequence (`0xED` forbids surrogate code points). -/
def utf8High3 (b0 : Nat) : Nat := if b0 = 0xED then 0xA0 else 0xC0

/-- Smallest admissible second byte after lead byte `b0` of a four-byte
sequence (`0xF0` forbids overlong encodings). -/
def utf8Low4 (b0 : Nat) : Nat := if b0 = 0xF0 then 0x90 else 0x80

/-- One past the largest admissible second byte after lead byte `b0` of a
four-byte sequence (`0xF4` caps code points at `0x10FFFF`). -/
def utf8High4 (b0 : Nat) : Nat := if b0 = 0xF4 then 0x90 else 0xC0

/-- One step of the UTF-8 decoder underlying Python's
`bytes.decode("utf-8")`: given the lead byte and the remaining bytes, the
decoded scalar value (`none` for an invalid sequence) and how many
continuation bytes the sequence consumed. -/
def utf8Step (b0 : Nat) (rest : List Nat) : Option Char × Nat :=
  if b0 < 0x80 then (some (Char.ofNat b0), 0)
  else if b0 < 0xC2 then (none, 0)
  else if b0 < 0xE0 then
    match rest with
    | b1 :: _ =>
      if 0x80 ≤ b1 ∧ b1 < 0xC0 then
        (some (Char.ofNat ((b0 - 0xC0) * 0x40 + (b1 - 0x80))), 1)
      else (none, 0)
    | [] => (none, 0)
  else if b0 < 0xF0 then
    match rest with
    | b1 :: b2 :: _ =>
      if (utf8Low3 b0 ≤ b1 ∧ b1 < utf8High3 b0) ∧ (0x80 ≤ b2 ∧ b2 < 0xC0) then
        (some (Char.ofNat
          ((b0 - 0xE0) * 0x1000 + (b1 - 0x80) * 0x40 + (b2 - 0x80))), 2)
      else (none, 0)
    | _ => (none, 0)
  else if b0 < 0xF5 then
    match rest with
    | b1 :: b2 :: b3 :: _ =>
      if (utf8Low4 b0 ≤ b1 ∧ b1 < utf8High4 b0) ∧ (0x80 ≤ b2 ∧ b2 < 0xC0) ∧
          (0x80 ≤ b3 ∧ b3 < 0xC0) then
        (some (Char.ofNat
          ((b0 - 0xF0) * 0x40000 + (b1 - 0x80) * 0x1000 +
            (b2 - 0x80) * 0x40 + (b3 - 0x80))), 3)
      else (none, 0)
    | _ => (none, 0)
  else (none, 0)

/-- The UTF-8 decoder: each emitted position is `some` decoded scalar value
or `none` for an invalid sequence (strict mode raises there,
`errors='replace'` substitutes U+FFFD). -/
def utf8DecodeLoop : List Nat → List (Option Char)
  | [] => []
  | b0 :: rest =>
    (utf8Step b0 rest).1 ::
      utf8DecodeLoop (rest.drop (utf8Step b0 rest).2)
termination_by l => l.length
decreasing_by
  simp [List.length_drop]
  omega

/-- Python's `bytes.decode("utf-8", errors="replace")`: never fails, invalid
positions become the replacement character U+FFFD. -/
def utf8DecodeReplace (bytes : List Nat) : String :=
  String.mk ((utf8DecodeLoop bytes).map (fun o => o.getD (Char.ofNat 0xFFFD)))

/-- Python's strict `bytes.decode("utf-8")`: `none` models the
`UnicodeDecodeError` raised on the first invalid sequence. -/
def utf8DecodeStrict (bytes : List Nat) : Option String :=
  if (utf8DecodeLoop bytes).all (fun o => o.isSome) then
    some (utf8DecodeReplace bytes)
  else none

/-- One archive entry: the central-directory metadata `zipfile.ZipInfo`
carries (restricted to the fields this program reads or writes) together with
its decompressed content. -/
structure ZipEntry where
  filename : String
  create_system : Nat
  external_attr : Nat
  compress_type : Nat
  date_time : Nat
  content : List Nat
deriving DecidableEq, Repr

/-- Data stored at a path on disk: a structurally valid ZIP archive with its
entry list, or bytes that fail `zipfile`'s structural validation
(`zipfile.BadZipFile` on open). -/
inductive FileData where
  | zip (entries : List ZipEntry) : FileData
  | raw (bytes : List Nat) : FileData
deriving DecidableEq, Repr

/-- The file system: an association list from path to file data, earliest
binding wins. -/
def FS : Type := List (String × FileData)

instance : DecidableEq FS := by
  unfold FS
  infer_instance

/-- Content of the file at `p`, `none` when no file exists there. -/
def fsLookup : FS → String → Option FileData
  | [], _ => none
  | kv :: rest, p => if kv.1 = p then some kv.2 else fsLookup rest p

/-- Delete the file at `p` (`os.remove`). -/
def fsErase : FS → String → FS
  | [], _ => []
  | kv :: rest, p => if kv.1 = p then fsErase rest p else kv :: fsErase rest p

/-- Create or overwrite the file at `p` with data `d`. -/
def fsWrite (fs : FS) (p : String) (d : FileData) : FS :=
  (p, d) :: fsErase fs p

/-- Python `target_path.replace('\\', '/')`: every backslash becomes a forward
slash (single-character pattern, hence a character map). -/
def normalizePath (s : String) : String :=
  String.mk (s.data.map (fun c => if c = '\\' then '/' else c))

/-- Python `zip_file.read(name)`: `getinfo` consults `NameToInfo`, which maps
each name to the LAST central-directory entry carrying it, and returns that
entry's decompressed content.  The `[]` default models the `KeyError` branch,
unreachable whenever `name` is the filename of an entry of the archive. -/
def zipRead (entries : List ZipEntry) (name : String) : List Nat :=
  match (entries.filter (fun e => e.filename = name)).getLast? with
  | some e => e.content
  | none => []

/-- Per-entry body of the copy loop shared by `create_file_in_zip` and
`create_symlink_in_zip` (src/app.py lines 41-51 and 104-114): abort with the
conflict message when the target path exists and `overwrite` is false
(`none`), otherwise copy every entry whose path differs from the target,
reading its content by name (`original_zip.read(item.filename)`) and writing
it with the entry's own metadata (`new_zip.writestr(item, data)`). -/
def copyItems (original : List ZipEntry) (target_path : String)
    (overwrite : Bool) : List ZipEntry → Option (List ZipEntry)
  | [] => some []
  | item :: rest =>
    if item.filename = target_path ∧ overwrite = false then
      none
    else if item.filename ≠ target_path then
      (copyItems original target_path overwrite rest).map
        (fun t => { item with content := zipRead original item.filename } :: t)
    else
      copyItems original target_path overwrite rest

/-- Entry produced by `new_zip.writestr(target_path, file_content)`
(src/app.py line 117): `zipfile.writestr` builds a fresh `ZipInfo` with the
current local time, `create_system = 3` on a POSIX platform, external
attributes `0o600 << 16` (or the directory attributes when the name ends in a
slash), the writer's compression `ZIP_DEFLATED = 8`, and the UTF-8 encoding
of the string content. -/
def defaultFileEntry (target_path : String) (file_content : String)
    (now : Nat) : ZipEntry :=
  { filename := target_path
  , create_system := 3
  , external_attr :=
      if target_path.data.getLast? = some '/' then (0o40775 <<< 16) ||| 0x10
      else 0o600 <<< 16
  , compress_type := 8
  , date_time := now
  , content := utf8Encode file_content }

/-- Entry produced by src/app.py lines 56-59: a fresh `ZipInfo(target_path)`
(whose defaults are `ZIP_STORED = 0` compression and the epoch date
`(1980,1,1,0,0,0)`, encoded here as `0`), then `create_system = 3`,
`external_attr = (0o120000 | 0o755) << 16`, and content
`symlink_target.encode('utf-8')`. -/
def symlinkEntry (target_path : String) (symlink_target : String) : ZipEntry :=
  { filename := target_path
  , create_system := 3
  , external_attr := (0o120000 ||| 0o755) <<< 16
  , compress_type := 0
  , date_time := 0
  , content := utf8Encode symlink_target }

/-- Model of `create_file_in_zip` (src/app.py lines 77-133).  `fs` is the
file system, `now` the current time used for the fresh entry's timestamp, and
`replaceFails` injects an exception from `os.replace` (caught by the generic
handler, which removes the staging file).  Returns the function's boolean
result and the file system on return. -/
def create_file_in_zip (fs : FS) (zip_path target_path0 : String)
    (file_content : String) (overwrite : Bool) (now : Nat)
    (replaceFails : Bool) : Bool × FS :=
  match fsLookup fs zip_path with
  | none => (false, fs)
  | some d =>
    let target_path := normalizePath target_path0
    let temp_zip := zip_path ++ ".tmp"
    match d with
    | FileData.raw _ => (false, fsErase fs temp_zip)
    | FileData.zip entries =>
      match copyItems entries target_path overwrite entries with
      | none => (false, fsErase fs temp_zip)
      | some copied =>
        let staged := copied ++ [defaultFileEntry target_path file_content now]
        if replaceFails then (false, fsErase fs temp_zip)
        else (true, fsWrite (fsErase fs temp_zip) zip_path (FileData.zip staged))

/-- Model of `create_symlink_in_zip` (src/app.py lines 14-75), structured
exactly as `create_file_in_zip` but appending the symlink entry of lines
56-59 instead of a regular entry. -/
def create_symlink_in_zip (fs : FS) (zip_path target_path0 : String)
    (symlink_target : String) (overwrite : Bool)
    (replaceFails : Bool) : Bool × FS :=
  match fsLookup fs zip_path with
  | none => (false, fs)
  | some d =>
    let target_path := normalizePath target_path0
    let temp_zip := zip_path ++ ".tmp"
    match d with
    | FileData.raw _ => (false, fsErase fs temp_zip)
    | FileData.zip entries =>
      match copyItems entries target_path overwrite entries with
      | none => (false, fsErase fs temp_zip)
      | some copied =>
        let staged := copied ++ [symlinkEntry target_path symlink_target]
        if replaceFails then (false, fsErase fs temp_zip)
        else (true, fsWrite (fsErase fs temp_zip) zip_path (FileData.zip staged))

/-- Model of `view_file_in_zip` (src/app.py lines 135-157): `none` models the
`return None` taken when the archive is missing or invalid or the path is not
in `namelist()`; otherwise the entry's content decoded with
`errors='replace'` is printed and returned. -/
def view_file_in_zip (fs : FS) (zip_path target_path : String) :
    Option String :=
  match fsLookup fs zip_path with
  | none => none
  | some (FileData.raw _) => none
  | some (FileData.zip entries) =>
    if entries.any (fun e => e.filename = target_path) then
      some (utf8DecodeReplace (zipRead entries target_path))
    else none

/-- Model of `is_symlink_in_zip` (src/app.py lines 247-251). -/
def is_symlink_in_zip (info : ZipEntry) : Bool :=
  info.create_system == 3 &&
    ((info.external_attr >>> 16) &&& 0o170000) == 0o120000

theorem temp_ne_self (zp : String) : zp ++ ".tmp" ≠ zp := by
  intro h
  have h2 := congrArg String.length h
  rw [String.length_append] at h2
  have h3 : (".tmp" : String).length = 4 := rfl
  omega

theorem fsLookup_fsErase_self (fs : FS) (p : String) :
    fsLookup (fsErase fs p) p = none := by
  induction fs with
  | nil => rfl
  | cons kv rest ih =>
    by_cases hk : kv.1 = p
    · simpa [fsErase, fsLookup, hk] using ih
    · simpa [fsErase, fsLookup, hk] using ih

theorem fsLookup_fsErase_ne (fs : FS) (p q : String) (h : q ≠ p) :
    fsLookup (fsErase fs p) q = fsLookup fs q := by
  induction fs with
  | nil => rfl
  | cons kv rest ih =>
    rw [fsErase]
    by_cases hk : kv.1 = p
    · rw [if_pos hk, ih, fsLookup,
        if_neg (by rw [hk]; exact fun hh => h hh.symm)]
    · rw [if_neg hk, fsLookup, fsLookup]
      by_cases hq : kv.1 = q
      · rw [if_pos hq, if_pos hq]
      · rw [if_neg hq, if_neg hq, ih]

theorem fsLookup_fsWrite_self (fs : FS) (p : String) (d : FileData) :
    fsLookup (fsWrite fs p d) p = some d := by
  simp [fsWrite, fsLookup]

theorem fsLookup_fsWrite_ne (fs : FS) (p q : String) (d : FileData)
    (h : q ≠ p) : fsLookup (fsWrite fs p d) q = fsLookup fs q := by
  have hpq : p ≠ q := fun hh => h hh.symm
  simp only [fsWrite, fsLookup, hpq, if_false, if_neg hpq]
  exact fsLookup_fsErase_ne fs p q h

theorem copyItems_none_iff (original : List ZipEntry) (t : String) (ow : Bool)
    (l : List ZipEntry) :
    copyItems original t ow l = none ↔
      (ow = false ∧ ∃ e ∈ l, e.filename = t) := by
  induction l with
  | nil => simp [copyItems]
  | cons item rest ih =>
    rw [copyItems]
    by_cases h1 : item.filename = t ∧ ow = false
    · rw [if_pos h1]
      exact ⟨fun _ => ⟨h1.2, item, List.mem_cons_self _ _, h1.1⟩, fun _ => rfl⟩
    · rw [if_neg h1]
      by_cases h2 : item.filename ≠ t
      · rw [if_pos h2]
        simp only [Option.map_eq_none', ih]
        constructor
        · rintro ⟨how, e, he, hf⟩
          exact ⟨how, e, List.mem_cons_of_mem _ he, hf⟩
        · rintro ⟨how, e, he, hf⟩
          rcases List.mem_cons.mp he with rfl | he2
          · exact absurd hf h2
          · exact ⟨how, e, he2, hf⟩
      · rw [if_neg h2]
        push_neg at h2
        have how : ow = true := by
          cases ow
          · exact absurd ⟨h2, rfl⟩ h1
          · rfl
        rw [ih]
        simp [how]

theorem copyItems_some (original : List ZipEntry) (t : String) (ow : Bool)
    (l r : List ZipEntry) (h : copyItems original t ow l = some r) :
    r = (l.filter (fun e => e.filename ≠ t)).map
      (fun e => { e with content := zipRead original e.filename }) := by
  induction l generalizing r with
  | nil =>
    rw [copyItems] at h
    cases h
    rfl
  | cons item rest ih =>
    rw [copyItems] at h
    by_cases h1 : item.filename = t ∧ ow = false
    · rw [if_pos h1] at h
      exact absurd h (by simp)
    · rw [if_neg h1] at h
      by_cases h2 : item.filename ≠ t
      · rw [if_pos h2] at h
        rcases Option.map_eq_some'.mp h with ⟨tail, htail, rfl⟩
        rw [List.filter_cons_of_pos (by simpa using h2), List.map_cons,
          ih tail htail]
      · rw [if_neg h2] at h
        push_neg at h2
        rw [List.filter_cons_of_neg (by simpa using h2)]
        exact ih r h

theorem copyItems_some_of_overwrite (original : List ZipEntry) (t : String)
    (l : List ZipEntry) :
    copyItems original t true l =
      some ((l.filter (fun e => e.filename ≠ t)).map
        (fun e => { e with content := zipRead original e.filename })) := by
  rcases hc : copyItems original t true l with _ | r
  · rw [copyItems_none_iff] at hc
    simp at hc
  · rw [copyItems_some original t true l r hc]

theorem create_file_success {fs fs' : FS} {zp tp c : String} {ow rf : Bool}
    {now : Nat}
    (h : create_file_in_zip fs zp tp c ow now rf = (true, fs')) :
    rf = false ∧ ∃ entries copied,
      fsLookup fs zp = some (FileData.zip entries) ∧
      copyItems entries (normalizePath tp) ow entries = some copied ∧
      fs' = fsWrite (fsErase fs (zp ++ ".tmp")) zp
        (FileData.zip (copied ++ [defaultFileEntry (normalizePath tp) c now])) := by
  rcases hfs : fsLookup fs zp with _ | d
  · simp [create_file_in_zip, hfs] at h
  · cases d with
    | raw bytes => simp [create_file_in_zip, hfs] at h
    | zip entries =>
      rcases hcopy : copyItems entries (normalizePath tp) ow entries
        with _ | copied
      · simp [create_file_in_zip, hfs, hcopy] at h
      · cases rf
        · simp only [create_file_in_zip, hfs, hcopy, Bool.false_eq_true,
            if_false, Prod.mk.injEq, true_and] at h
          exact ⟨rfl, entries, copied, by simp [hfs], by simp [hcopy], h.symm⟩
        · simp [create_file_in_zip, hfs, hcopy] at h

theorem create_symlink_success {fs fs' : FS} {zp tp st : String}
    {ow rf : Bool}
    (h : create_symlink_in_zip fs zp tp st ow rf = (true, fs')) :
    rf = false ∧ ∃ entries copied,
      fsLookup fs zp = some (FileData.zip entries) ∧
      copyItems entries (normalizePath tp) ow entries = some copied ∧
      fs' = fsWrite (fsErase fs (zp ++ ".tmp")) zp
        (FileData.zip (copied ++ [symlinkEntry (normalizePath tp) st])) := by
  rcases hfs : fsLookup fs zp with _ | d
  · simp [create_symlink_in_zip, hfs] at h
  · cases d with
    | raw bytes => simp [create_symlink_in_zip, hfs] at h
    | zip entries =>
      rcases hcopy : copyItems entries (normalizePath tp) ow entries
        with _ | copied
      · simp [create_symlink_in_zip, hfs, hcopy] at h
      · cases rf
        · simp only [create_symlink_in_zip, hfs, hcopy, Bool.false_eq_true,
            if_false, Prod.mk.injEq, true_and] at h
          exact ⟨rfl, entries, copied, by simp [hfs], by simp [hcopy], h.symm⟩
        · simp [create_symlink_in_zip, hfs, hcopy] at h

theorem create_file_failure {fs fs' : FS} {zp tp c : String} {ow rf : Bool}
    {now : Nat}
    (h : create_file_in_zip fs zp tp c ow now rf = (false, fs')) :
    fs' = fs ∨ fs' = fsErase fs (zp ++ ".tmp") := by
  rcases hfs : fsLookup fs zp with _ | d
  · simp only [create_file_in_zip, hfs, Prod.mk.injEq, true_and] at h
    exact Or.inl h.symm
  · cases d with
    | raw bytes =>
      simp only [create_file_in_zip, hfs, Prod.mk.injEq, true_and] at h
      exact Or.inr h.symm
    | zip entries =>
      rcases hcopy : copyItems entries (normalizePath tp) ow entries
        with _ | copied
      · simp only [create_file_in_zip, hfs, hcopy, Prod.mk.injEq,
          true_and] at h
        exact Or.inr h.symm
      · cases rf
        · simp [create_file_in_zip, hfs, hcopy] at h
        · simp only [create_file_in_zip, hfs, hcopy, if_true,
            Prod.mk.injEq, true_and] at h
          exact Or.inr h.symm

theorem create_symlink_failure {fs fs' : FS} {zp tp st : String}
    {ow rf : Bool}
    (h : create_symlink_in_zip fs zp tp st ow rf = (false, fs')) :
    fs' = fs ∨ fs' = fsErase fs (zp ++ ".tmp") := by
  rcases hfs : fsLookup fs zp with _ | d
  · simp only [create_symlink_in_zip, hfs, Prod.mk.injEq, true_and] at h
    exact Or.inl h.symm
  · cases d with
    | raw bytes =>
      simp only [create_symlink_in_zip, hfs, Prod.mk.injEq, true_and] at h
      exact Or.inr h.symm
    | zip entries =>
      rcases hcopy : copyItems entries (normalizePath tp) ow entries
        with _ | copied
      · simp only [create_symlink_in_zip, hfs, hcopy, Prod.mk.injEq,
          true_and] at h
        exact Or.inr h.symm
      · cases rf
        · simp [create_symlink_in_zip, hfs, hcopy] at h
        · simp only [create_symlink_in_zip, hfs, hcopy, if_true,
            Prod.mk.injEq, true_and] at h
          exact Or.inr h.symm

theorem char_toNat_valid (c : Char) :
    c.toNat < 0xD800 ∨ (0xDFFF < c.toNat ∧ c.toNat < 0x110000) :=
  c.valid

theorem utf8_three_cond (n : Nat) (h8 : 0x800 ≤ n) (h16 : n < 0x10000)
    (hsur : n < 0xD800 ∨ 0xDFFF < n) :
    utf8Low3 (0xE0 + n / 0x1000) ≤ 0x80 + n / 0x40 % 0x40 ∧
      0x80 + n / 0x40 % 0x40 < utf8High3 (0xE0 + n / 0x1000) := by
  unfold utf8Low3 utf8High3
  rcases hsur with hs | hs
  · by_cases hE : 0xE0 + n / 0x1000 = 0xE0
    · rw [if_pos hE, if_neg (by omega)]
      omega
    · by_cases hD : 0xE0 + n / 0x1000 = 0xED
      · rw [if_neg hE, if_pos hD]
        omega
      · rw [if_neg hE, if_neg hD]
        omega
  · by_cases hE : 0xE0 + n / 0x1000 = 0xE0
    · omega
    · rw [if_neg hE, if_neg (by omega)]
      omega

theorem utf8_four_cond (n : Nat) (h16 : 0x10000 ≤ n) (hmax : n < 0x110000) :
    utf8Low4 (0xF0 + n / 0x40000) ≤ 0x80 + n / 0x1000 % 0x40 ∧
      0x80 + n / 0x1000 % 0x40 < utf8High4 (0xF0 + n / 0x40000) := by
  unfold utf8Low4 utf8High4
  by_cases hF0 : 0xF0 + n / 0x40000 = 0xF0
  · rw [if_pos hF0, if_neg (by omega)]
    omega
  · by_cases hF4 : 0xF0 + n / 0x40000 = 0xF4
    · rw [if_neg hF0, if_pos hF4]
      omega
    · rw [if_neg hF0, if_neg hF4]
      omega

theorem utf8DecodeLoop_encodeChar (c : Char) (rest : List Nat) :
    utf8DecodeLoop (utf8EncodeChar c ++ rest) =
      some c :: utf8DecodeLoop rest := by
  have hv := char_toNat_valid c
  have hofn := Char.ofNat_toNat c
  by_cases h1 : c.toNat < 0x80
  · have henc : utf8EncodeChar c = [c.toNat] := by
      rw [utf8EncodeChar, if_pos h1]
    have hstep : utf8Step c.toNat rest = (some (Char.ofNat c.toNat), 0) := by
      rw [utf8Step.eq_def]
      exact if_pos h1
    rw [henc, List.cons_append, List.nil_append, utf8DecodeLoop, hstep, hofn]
    rfl
  · by_cases h2 : c.toNat < 0x800
    · have henc : utf8EncodeChar c =
          [0xC0 + c.toNat / 0x40, 0x80 + c.toNat % 0x40] := by
        rw [utf8EncodeChar, if_neg h1, if_pos h2]
      have hstep : utf8Step (0xC0 + c.toNat / 0x40)
          ((0x80 + c.toNat % 0x40) :: rest) =
          (some (Char.ofNat ((0xC0 + c.toNat / 0x40 - 0xC0) * 0x40 +
            (0x80 + c.toNat % 0x40 - 0x80))), 1) := by
        rw [utf8Step.eq_def, if_neg (by omega), if_neg (by omega),
          if_pos (by omega)]
        exact if_pos ⟨by omega, by omega⟩
      have harg : (0xC0 + c.toNat / 0x40 - 0xC0) * 0x40 +
          (0x80 + c.toNat % 0x40 - 0x80) = c.toNat := by omega
      rw [henc, List.cons_append, List.cons_append, List.nil_append,
        utf8DecodeLoop, hstep, harg, hofn]
      rfl
    · by_cases h3 : c.toNat < 0x10000
      · have hsur : c.toNat < 0xD800 ∨ 0xDFFF < c.toNat := by
          rcases hv with hs | hs
          · exact Or.inl hs
          · exact Or.inr hs.1
        have hcond := utf8_three_cond c.toNat (by omega) h3 hsur
        have henc : utf8EncodeChar c =
            [0xE0 + c.toNat / 0x1000, 0x80 + c.toNat / 0x40 % 0x40,
              0x80 + c.toNat % 0x40] := by
          rw [utf8EncodeChar, if_neg h1, if_neg h2, if_pos h3]
        have hstep : utf8Step (0xE0 + c.toNat / 0x1000)
            ((0x80 + c.toNat / 0x40 % 0x40) :: (0x80 + c.toNat % 0x40) ::
              rest) =
            (some (Char.ofNat ((0xE0 + c.toNat / 0x1000 - 0xE0) * 0x1000 +
              (0x80 + c.toNat / 0x40 % 0x40 - 0x80) * 0x40 +
              (0x80 + c.toNat % 0x40 - 0x80))), 2) := by
          rw [utf8Step.eq_def, if_neg (by omega), if_neg (by omega),
            if_neg (by omega), if_pos (by omega)]
          exact if_pos ⟨hcond, by omega, by omega⟩
        have harg : (0xE0 + c.toNat / 0x1000 - 0xE0) * 0x1000 +
            (0x80 + c.toNat / 0x40 % 0x40 - 0x80) * 0x40 +
            (0x80 + c.toNat % 0x40 - 0x80) = c.toNat := by omega
        rw [henc, List.cons_append, List.cons_append, List.cons_append,
          List.nil_append, utf8DecodeLoop, hstep, harg, hofn]
        rfl
      · have hmax : c.toNat < 0x110000 := by
          rcases hv with hs | hs
          · omega
          · exact hs.2
        have hcond := utf8_four_cond c.toNat (by omega) hmax
        have henc : utf8EncodeChar c =
            [0xF0 + c.toNat / 0x40000, 0x80 + c.toNat / 0x1000 % 0x40,
              0x80 + c.toNat / 0x40 % 0x40, 0x80 + c.toNat % 0x40] := by
          rw [utf8EncodeChar, if_neg h1, if_neg h2, if_neg h3]
        have hstep : utf8Step (0xF0 + c.toNat / 0x40000)
            ((0x80 + c.toNat / 0x1000 % 0x40) ::
              (0x80 + c.toNat / 0x40 % 0x40) :: (0x80 + c.toNat % 0x40) ::
              rest) =
            (some (Char.ofNat ((0xF0 + c.toNat / 0x40000 - 0xF0) * 0x40000 +
              (0x80 + c.toNat / 0x1000 % 0x40 - 0x80) * 0x1000 +
              (0x80 + c.toNat / 0x40 % 0x40 - 0x80) * 0x40 +
              (0x80 + c.toNat % 0x40 - 0x80))), 3) := by
          rw [utf8Step.eq_def, if_neg (by omega), if_neg (by omega),
            if_neg (by omega), if_neg (by omega), if_pos (by omega)]
          exact if_pos ⟨hcond, ⟨by omega, by omega⟩, by omega, by omega⟩
        have harg : (0xF0 + c.toNat / 0x40000 - 0xF0) * 0x40000 +
            (0x80 + c.toNat / 0x1000 % 0x40 - 0x80) * 0x1000 +
            (0x80 + c.toNat / 0x40 % 0x40 - 0x80) * 0x40 +
            (0x80 + c.toNat % 0x40 - 0x80) = c.toNat := by omega
        rw [henc, List.cons_append, List.cons_append, List.cons_append,
          List.cons_append, List.nil_append, utf8DecodeLoop, hstep, harg,
          hofn]
        rfl

theorem utf8DecodeLoop_encodeList (l : List Char) :
    utf8DecodeLoop (utf8EncodeList l) = l.map some := by
  induction l with
  | nil =>
    rw [utf8EncodeList, utf8DecodeLoop, List.map_nil]
  | cons c cs ih =>
    rw [utf8EncodeList, utf8DecodeLoop_encodeChar, ih, List.map_cons]

theorem utf8DecodeReplace_encode (s : String) :
    utf8DecodeReplace (utf8Encode s) = s := by
  rw [utf8DecodeReplace, utf8Encode, utf8DecodeLoop_encodeList]
  rw [List.map_map]
  have : (fun o => Option.getD o (Char.ofNat 0xFFFD)) ∘ some = id := rfl
  rw [this, List.map_id]

theorem utf8DecodeStrict_encode (s : String) :
    utf8DecodeStrict (utf8Encode s) = some s := by
  rw [utf8DecodeStrict, if_pos, utf8DecodeReplace_encode]
  rw [utf8Encode, utf8DecodeLoop_encodeList]
  simp

theorem and_f000_eq (u : Nat) :
    u &&& 0xF000 = u / 0x1000 % 0x10 * 0x1000 := by
  have hdiv : u / 0x1000 = u >>> 12 := by
    rw [Nat.shiftRight_eq_div_pow]
  have hmul : u >>> 12 % 0x10 * 0x1000 = (u >>> 12 % 2 ^ 4) <<< 12 := by
    rw [Nat.shiftLeft_eq]
    norm_num
  rw [hdiv, hmul]
  apply Nat.eq_of_testBit_eq
  intro i
  rw [Nat.testBit_and, Nat.testBit_shiftLeft, Nat.testBit_mod_two_pow,
    Nat.testBit_shiftRight]
  by_cases h12 : 12 ≤ i
  · by_cases h16 : i < 16
    · have hb : Nat.testBit 0xF000 i = true := by interval_cases i <;> decide
      have hi : 12 + (i - 12) = i := by omega
      have h4 : i - 12 < 4 := by omega
      rw [hb, hi]
      simp [h12, h4]
    · have hpow : (0xF000 : Nat) < 2 ^ i := by
        calc (0xF000 : Nat) < 2 ^ 16 := by norm_num
        _ ≤ 2 ^ i := Nat.pow_le_pow_right (by norm_num) (by omega)
      have hb : Nat.testBit 0xF000 i = false := Nat.testBit_lt_two_pow hpow
      have h4 : ¬ (i - 12 < 4) := by omega
      rw [hb]
      simp [h4]
  · have hb : Nat.testBit 0xF000 i = false := by interval_cases i <;> decide
    rw [hb]
    simp [h12]

theorem and_typebits_iff (u : Nat) (hu : u < 0x10000) :
    u &&& 0o170000 = 0o120000 ↔ u / 0x1000 = 0o12 := by
  rw [and_f000_eq]
  omega

theorem zipRead_cons_ne (a : ZipEntry) (rest : List ZipEntry) (name : String)
    (h : ¬ a.filename = name) :
    zipRead (a :: rest) name = zipRead rest name := by
  rw [zipRead, zipRead, List.filter_cons_of_neg (by simpa using h)]

theorem zipRead_nodup {entries : List ZipEntry} {e : ZipEntry}
    (hnd : (entries.map (fun x => x.filename)).Nodup) (he : e ∈ entries) :
    zipRead entries e.filename = e.content := by
  induction entries with
  | nil => cases he
  | cons a rest ih =>
    rw [List.map_cons, List.nodup_cons] at hnd
    rcases List.mem_cons.mp he with rfl | he2
    · have hrest : rest.filter (fun x => x.filename = e.filename) = [] := by
        rw [List.filter_eq_nil_iff]
        intro x hx
        simp only [decide_eq_true_eq]
        intro hxe
        exact hnd.1 (by rw [← hxe]; exact List.mem_map_of_mem _ hx)
      rw [zipRead, List.filter_cons_of_pos (by simp), hrest]
      rfl
    · have hane : ¬ a.filename = e.filename := by
        intro hh
        exact hnd.1 (by rw [hh]; exact List.mem_map_of_mem _ he2)
      rw [zipRead_cons_ne a rest e.filename hane]
      exact ih hnd.2 he2

theorem zipRead_append_last (l : List ZipEntry) (e : ZipEntry) :
    zipRead (l ++ [e]) e.filename = e.content := by
  rw [zipRead, List.filter_append, List.filter_cons_of_pos (by simp),
    List.filter_nil, List.getLast?_concat]

theorem copied_filename_ne (original l : List ZipEntry) (t : String)
    (x : ZipEntry)
    (hx : x ∈ (l.filter (fun e => e.filename ≠ t)).map
      (fun e => { e with content := zipRead original e.filename })) :
    ¬ x.filename = t := by
  rcases List.mem_map.mp hx with ⟨e, he, rfl⟩
  have h2 := List.of_mem_filter he
  simpa using h2

theorem copied_map_filename (original l : List ZipEntry) (t : String) :
    ((l.filter (fun e => e.filename ≠ t)).map
      (fun e => { e with content := zipRead original e.filename })).map
      (fun e => e.filename) =
    (l.map (fun e => e.filename)).filter (fun s => s ≠ t) := by
  induction l with
  | nil => rfl
  | cons a rest ih =>
    by_cases h : a.filename = t
    · simp only [List.map_cons] at ih ⊢
      simp [h] at ih ⊢
      exact ih
    · simp only [List.map_cons] at ih ⊢
      simp [h] at ih ⊢
      exact ih

theorem mem_copied_of_nodup {entries : List ZipEntry} {e : ZipEntry}
    (t : String) (hnd : (entries.map (fun x => x.filename)).Nodup)
    (he : e ∈ entries) (hne : e.filename ≠ t) :
    e ∈ (entries.filter (fun x => x.filename ≠ t)).map
      (fun x => { x with content := zipRead entries x.filename }) := by
  have hf : e ∈ entries.filter (fun x => x.filename ≠ t) :=
    List.mem_filter.mpr ⟨he, by simpa using hne⟩
  have he2 : e = { e with content := zipRead entries e.filename } := by
    rw [zipRead_nodup hnd he]
  rw [he2]
  exact List.mem_map_of_mem _ hf

theorem is_symlink_symlinkEntry (tp st : String) :
    is_symlink_in_zip (symlinkEntry tp st) = true := by
  simp only [is_symlink_in_zip, symlinkEntry]
  decide

theorem is_symlink_defaultFileEntry (tp cf : String) (now : Nat) :
    is_symlink_in_zip (defaultFileEntry tp cf now) = false := by
  simp only [is_symlink_in_zip, defaultFileEntry]
  split
  · decide
  · decide

theorem create_file_overwrite_eq (fs : FS) (zp tp c : String) (now : Nat)
    (entries : List ZipEntry)
    (hzip : fsLookup fs zp = some (FileData.zip entries)) :
    create_file_in_zip fs zp tp c true now false =
      (true, fsWrite (fsErase fs (zp ++ ".tmp")) zp (FileData.zip
        (((entries.filter (fun e => e.filename ≠ normalizePath tp)).map
          (fun e => { e with content := zipRead entries e.filename })) ++
          [defaultFileEntry (normalizePath tp) c now]))) := by
  simp only [create_file_in_zip, hzip, copyItems_some_of_overwrite]
  simp

/-- Sample regular entry used by the concrete witnesses below. -/
def entReadme : ZipEntry :=
  { filename := "docs/readme.txt", create_system := 3
  , external_attr := 0o100644 * 65536, compress_type := 8, date_time := 7
  , content := utf8Encode "hello" }

/-- Second sample entry (stored uncompressed, binary content). -/
def entNotes : ZipEntry :=
  { filename := "notes.txt", create_system := 3
  , external_attr := 0o100644 * 65536, compress_type := 0, date_time := 9
  , content := [1, 2, 3] }

/-- Sample file system holding one two-entry archive. -/
def fsSample : FS := [("a.zip", FileData.zip [entReadme, entNotes])]

/-- Claim C1: for every successful `create_file_in_zip` or
`create_symlink_in_zip` on archive `A` at target path `P`, every entry of
`A` whose path is not `P` appears in the resulting archive unchanged — same
path, content, compression metadata and external attributes (membership of
the whole `ZipEntry` record).  The archive is assumed to have pairwise
distinct entry paths, the data-model invariant the specification states for
archives; with duplicate paths the copy step rewrites contents (see the C9
theorems). -/
theorem C1_preservation (fs fs1 fs2 : FS) (zp tpf tps cf st : String)
    (owf ows : Bool) (now : Nat) (entries es1 es2 : List ZipEntry)
    (hzip : fsLookup fs zp = some (FileData.zip entries))
    (hnd : (entries.map (fun e => e.filename)).Nodup)
    (hf : create_file_in_zip fs zp tpf cf owf now false = (true, fs1))
    (hres1 : fsLookup fs1 zp = some (FileData.zip es1))
    (hs : create_symlink_in_zip fs zp tps st ows false = (true, fs2))
    (hres2 : fsLookup fs2 zp = some (FileData.zip es2)) :
    (∀ e ∈ entries, e.filename ≠ normalizePath tpf → e ∈ es1) ∧
    (∀ e ∈ entries, e.filename ≠ normalizePath tps → e ∈ es2) := by
  constructor
  · obtain ⟨-, entries1, copied1, hl1, hc1, rfl⟩ := create_file_success hf
    rw [hzip] at hl1
    simp only [Option.some.injEq, FileData.zip.injEq] at hl1
    subst hl1
    rw [fsLookup_fsWrite_self] at hres1
    simp only [Option.some.injEq, FileData.zip.injEq] at hres1
    subst hres1
    intro e he hne
    rw [copyItems_some _ _ _ _ _ hc1]
    exact List.mem_append_left _ (mem_copied_of_nodup _ hnd he hne)
  · obtain ⟨-, entries2, copied2, hl2, hc2, rfl⟩ := create_symlink_success hs
    rw [hzip] at hl2
    simp only [Option.some.injEq, FileData.zip.injEq] at hl2
    subst hl2
    rw [fsLookup_fsWrite_self] at hres2
    simp only [Option.some.injEq, FileData.zip.injEq] at hres2
    subst hres2
    intro e he hne
    rw [copyItems_some _ _ _ _ _ hc2]
    exact List.mem_append_left _ (mem_copied_of_nodup _ hnd he hne)

/-- Witness for C1 at a concrete archive: the untouched entry survives both
a file insertion and a symlink insertion. -/
theorem C1_preservation_witness :
    entNotes ∈ [entReadme, entNotes, defaultFileEntry "new.txt" "x" 0] ∧
    entNotes ∈ [entReadme, entNotes, symlinkEntry "ln" "/etc/passwd"] := by
  have h := C1_preservation fsSample
    (create_file_in_zip fsSample "a.zip" "new.txt" "x" false 0 false).2
    (create_symlink_in_zip fsSample "a.zip" "ln" "/etc/passwd" false
      false).2
    "a.zip" "new.txt" "ln" "x" "/etc/passwd" false false 0
    [entReadme, entNotes]
    [entReadme, entNotes, defaultFileEntry "new.txt" "x" 0]
    [entReadme, entNotes, symlinkEntry "ln" "/etc/passwd"]
    (by decide) (by decide) (by decide) (by decide) (by decide) (by decide)
  exact ⟨h.1 entNotes (by decide) (by decide),
    h.2 entNotes (by decide) (by decide)⟩

/-- Claim C2: on every failure of `create_file_in_zip` or
`create_symlink_in_zip` — missing archive, invalid archive, conflict, or an
injected `os.replace` exception — the original archive file is unchanged and
the staging file `<archive>.tmp` does not remain on disk.  The file system
is assumed to hold no stale file at the staging path before the call (a
pre-existing unrelated file there is not a staging artifact of the run). -/
theorem C2_cleanup (fs : FS) (zp tpf tps cf st : String)
    (owf ows rff rfs : Bool) (now : Nat)
    (htmp : fsLookup fs (zp ++ ".tmp") = none) :
    ((create_file_in_zip fs zp tpf cf owf now rff).1 = false →
      fsLookup (create_file_in_zip fs zp tpf cf owf now rff).2 zp =
        fsLookup fs zp ∧
      fsLookup (create_file_in_zip fs zp tpf cf owf now rff).2
        (zp ++ ".tmp") = none) ∧
    ((create_symlink_in_zip fs zp tps st ows rfs).1 = false →
      fsLookup (create_symlink_in_zip fs zp tps st ows rfs).2 zp =
        fsLookup fs zp ∧
      fsLookup (create_symlink_in_zip fs zp tps st ows rfs).2
        (zp ++ ".tmp") = none) := by
  have hzpne : zp ≠ zp ++ ".tmp" := fun h => temp_ne_self zp h.symm
  constructor
  · intro hfail
    have hop : create_file_in_zip fs zp tpf cf owf now rff =
        (false, (create_file_in_zip fs zp tpf cf owf now rff).2) := by
      rw [← hfail]
    rcases create_file_failure hop with h | h
    · rw [h]
      exact ⟨rfl, htmp⟩
    · rw [h]
      exact ⟨fsLookup_fsErase_ne fs (zp ++ ".tmp") zp hzpne,
        fsLookup_fsErase_self fs (zp ++ ".tmp")⟩
  · intro hfail
    have hop : create_symlink_in_zip fs zp tps st ows rfs =
        (false, (create_symlink_in_zip fs zp tps st ows rfs).2) := by
      rw [← hfail]
    rcases create_symlink_failure hop with h | h
    · rw [h]
      exact ⟨rfl, htmp⟩
    · rw [h]
      exact ⟨fsLookup_fsErase_ne fs (zp ++ ".tmp") zp hzpne,
        fsLookup_fsErase_self fs (zp ++ ".tmp")⟩

/-- Witness for C2 at a concrete input (archive absent, so both operations
fail). -/
theorem C2_cleanup_witness :
    ((create_file_in_zip [] "a.zip" "t1" "c" false 0 false).1 = false →
      fsLookup (create_file_in_zip [] "a.zip" "t1" "c" false 0 false).2
          "a.zip" = fsLookup [] "a.zip" ∧
      fsLookup (create_file_in_zip [] "a.zip" "t1" "c" false 0 false).2
          ("a.zip" ++ ".tmp") = none) ∧
    ((create_symlink_in_zip [] "a.zip" "t2" "s" false false).1 = false →
      fsLookup (create_symlink_in_zip [] "a.zip" "t2" "s" false false).2
          "a.zip" = fsLookup [] "a.zip" ∧
      fsLookup (create_symlink_in_zip [] "a.zip" "t2" "s" false false).2
          ("a.zip" ++ ".tmp") = none) :=
  C2_cleanup [] "a.zip" "t1" "t2" "c" "s" false false false false 0 rfl

/-- Claim C3: inserting at an existing path with `overwrite = false` makes
both operations return failure and leaves the archive unchanged (the
conflict is reported by printing the path, which the embedding does not
model beyond the boolean failure). -/
theorem C3_conflict_guard (fs : FS) (zp tpf tps cf st : String)
    (rff rfs : Bool) (now : Nat) (entries : List ZipEntry)
    (hzip : fsLookup fs zp = some (FileData.zip entries))
    (hconf_f : ∃ e ∈ entries, e.filename = normalizePath tpf)
    (hconf_s : ∃ e ∈ entries, e.filename = normalizePath tps) :
    (create_file_in_zip fs zp tpf cf false now rff).1 = false ∧
    fsLookup (create_file_in_zip fs zp tpf cf false now rff).2 zp =
      some (FileData.zip entries) ∧
    (create_symlink_in_zip fs zp tps st false rfs).1 = false ∧
    fsLookup (create_symlink_in_zip fs zp tps st false rfs).2 zp =
      some (FileData.zip entries) := by
  have hzpne : zp ≠ zp ++ ".tmp" := fun h => temp_ne_self zp h.symm
  have hcf : copyItems entries (normalizePath tpf) false entries = none :=
    (copyItems_none_iff _ _ _ _).mpr ⟨rfl, hconf_f⟩
  have hcs : copyItems entries (normalizePath tps) false entries = none :=
    (copyItems_none_iff _ _ _ _).mpr ⟨rfl, hconf_s⟩
  have hopf : create_file_in_zip fs zp tpf cf false now rff =
      (false, fsErase fs (zp ++ ".tmp")) := by
    simp only [create_file_in_zip, hzip, hcf]
  have hops : create_symlink_in_zip fs zp tps st false rfs =
      (false, fsErase fs (zp ++ ".tmp")) := by
    simp only [create_symlink_in_zip, hzip, hcs]
  refine ⟨by rw [hopf], ?_, by rw [hops], ?_⟩
  · rw [hopf, fsLookup_fsErase_ne fs (zp ++ ".tmp") zp hzpne, hzip]
  · rw [hops, fsLookup_fsErase_ne fs (zp ++ ".tmp") zp hzpne, hzip]

/-- Witness for C3 at a concrete archive that already contains the target
path. -/
theorem C3_conflict_guard_witness :
    (create_file_in_zip fsSample "a.zip" "docs/readme.txt" "bye" false 0
      false).1 = false ∧
    fsLookup (create_file_in_zip fsSample "a.zip" "docs/readme.txt" "bye"
      false 0 false).2 "a.zip" =
      some (FileData.zip [entReadme, entNotes]) ∧
    (create_symlink_in_zip fsSample "a.zip" "docs/readme.txt" "/etc" false
      false).1 = false ∧
    fsLookup (create_symlink_in_zip fsSample "a.zip" "docs/readme.txt"
      "/etc" false false).2 "a.zip" =
      some (FileData.zip [entReadme, entNotes]) :=
  C3_conflict_guard fsSample "a.zip" "docs/readme.txt" "docs/readme.txt"
    "bye" "/etc" false false 0 [entReadme, entNotes] (by decide)
    (by decide) (by decide)

/-- Claim C4: after a successful `create_symlink_in_zip` at path `P` with
target `T`, reading `P` back through `view_file_in_zip` yields `T`, and the
entry written at `P` (the archive's last entry) is classified as a symlink
by `is_symlink_in_zip`; the entry written by `create_file_in_zip` is
classified as not a symlink. -/
theorem C4_symlink_roundtrip (fs fs1 fs2 : FS) (zp tpf tps cf st : String)
    (owf ows : Bool) (now : Nat)
    (hs : create_symlink_in_zip fs zp tps st ows false = (true, fs2))
    (hf : create_file_in_zip fs zp tpf cf owf now false = (true, fs1)) :
    view_file_in_zip fs2 zp (normalizePath tps) = some st ∧
    (∃ es2 e, fsLookup fs2 zp = some (FileData.zip es2) ∧
      es2.getLast? = some e ∧ is_symlink_in_zip e = true) ∧
    (∃ es1 e, fsLookup fs1 zp = some (FileData.zip es1) ∧
      es1.getLast? = some e ∧ is_symlink_in_zip e = false) := by
  obtain ⟨-, entries2, copied2, hl2, hc2, rfl⟩ := create_symlink_success hs
  obtain ⟨-, entries1, copied1, hl1, hc1, rfl⟩ := create_file_success hf
  refine ⟨?_, ?_, ?_⟩
  · have hany : (copied2 ++ [symlinkEntry (normalizePath tps) st]).any
        (fun e => e.filename = normalizePath tps) = true := by
      rw [List.any_eq_true]
      exact ⟨symlinkEntry (normalizePath tps) st,
        List.mem_append_right _ (List.mem_singleton.mpr rfl),
        by simp [symlinkEntry]⟩
    have hzr : zipRead (copied2 ++ [symlinkEntry (normalizePath tps) st])
        (normalizePath tps) = utf8Encode st :=
      zipRead_append_last copied2 (symlinkEntry (normalizePath tps) st)
    simp only [view_file_in_zip, fsLookup_fsWrite_self, hany, if_true]
    rw [hzr, utf8DecodeReplace_encode]
  · exact ⟨copied2 ++ [symlinkEntry (normalizePath tps) st],
      symlinkEntry (normalizePath tps) st, fsLookup_fsWrite_self _ _ _,
      List.getLast?_concat _, is_symlink_symlinkEntry _ _⟩
  · exact ⟨copied1 ++ [defaultFileEntry (normalizePath tpf) cf now],
      defaultFileEntry (normalizePath tpf) cf now,
      fsLookup_fsWrite_self _ _ _, List.getLast?_concat _,
      is_symlink_defaultFileEntry _ _ _⟩

/-- Witness for C4 at a concrete archive. -/
theorem C4_symlink_roundtrip_witness :
    view_file_in_zip (create_symlink_in_zip fsSample "a.zip" "ln"
        "/etc/passwd" false false).2 "a.zip" (normalizePath "ln") =
      some "/etc/passwd" ∧
    (∃ es2 e, fsLookup (create_symlink_in_zip fsSample "a.zip" "ln"
        "/etc/passwd" false false).2 "a.zip" = some (FileData.zip es2) ∧
      es2.getLast? = some e ∧ is_symlink_in_zip e = true) ∧
    (∃ es1 e, fsLookup (create_file_in_zip fsSample "a.zip" "new.txt" "hi"
        false 0 false).2 "a.zip" = some (FileData.zip es1) ∧
      es1.getLast? = some e ∧ is_symlink_in_zip e = false) :=
  C4_symlink_roundtrip fsSample
    (create_file_in_zip fsSample "a.zip" "new.txt" "hi" false 0 false).2
    (create_symlink_in_zip fsSample "a.zip" "ln" "/etc/passwd" false
      false).2
    "a.zip" "new.txt" "ln" "hi" "/etc/passwd" false false 0
    (by decide) (by decide)

/-- Claim C5: the entry written by `create_symlink_in_zip` carries external
attributes whose upper 16 bits are the POSIX symlink file-type bits combined
with permission bits `0755` (attribute value `(0o120000 + 0o755) * 2^16`),
origin tag `create_system = 3` (Unix), and content exactly the UTF-8
encoding of the target string, with no trailing terminator. -/
theorem C5_symlink_attrs (fs fs2 : FS) (zp tps st : String) (ows : Bool)
    (es2 : List ZipEntry)
    (hs : create_symlink_in_zip fs zp tps st ows false = (true, fs2))
    (hres : fsLookup fs2 zp = some (FileData.zip es2)) :
    ∃ e, es2.getLast? = some e ∧
      e.filename = normalizePath tps ∧
      e.external_attr = (0o120000 + 0o755) * 2 ^ 16 ∧
      e.external_attr / 2 ^ 16 = 0o120000 + 0o755 ∧
      e.create_system = 3 ∧
      e.content = utf8Encode st := by
  obtain ⟨-, entries2, copied2, hl2, hc2, rfl⟩ := create_symlink_success hs
  rw [fsLookup_fsWrite_self] at hres
  simp only [Option.some.injEq, FileData.zip.injEq] at hres
  subst hres
  refine ⟨symlinkEntry (normalizePath tps) st, List.getLast?_concat _,
    rfl, ?_, ?_, rfl, rfl⟩
  · simp only [symlinkEntry]
    decide
  · simp only [symlinkEntry]
    decide

/-- Witness for C5 at a concrete archive. -/
theorem C5_symlink_attrs_witness :
    ∃ e, ([entReadme, entNotes, symlinkEntry "ln" "/etc/passwd"] :
        List ZipEntry).getLast? = some e ∧
      e.filename = normalizePath "ln" ∧
      e.external_attr = (0o120000 + 0o755) * 2 ^ 16 ∧
      e.external_attr / 2 ^ 16 = 0o120000 + 0o755 ∧
      e.create_system = 3 ∧
      e.content = utf8Encode "/etc/passwd" :=
  C5_symlink_attrs fsSample
    (create_symlink_in_zip fsSample "a.zip" "ln" "/etc/passwd" false
      false).2
    "a.zip" "ln" "/etc/passwd" false
    [entReadme, entNotes, symlinkEntry "ln" "/etc/passwd"]
    (by decide) (by decide)

/-- Claim C6: `is_symlink_in_zip` returns true exactly when the entry's
origin tag is the Unix producer (`create_system = 3`) and the file-type
nibble of the 16-bit POSIX mode stored in the upper half of the 32-bit
external-attributes field is the symbolic-link code (`mode / 2^12 = 0o12`,
that is `mode &&& 0o170000 = 0o120000`).  The predicate is a pure function
of the entry record. -/
theorem C6_is_symlink_iff (info : ZipEntry)
    (h32 : info.external_attr < 2 ^ 32) :
    is_symlink_in_zip info = true ↔
      (info.create_system = 3 ∧
        info.external_attr / 2 ^ 16 / 2 ^ 12 = 0o12) := by
  rw [is_symlink_in_zip, Bool.and_eq_true, beq_iff_eq, beq_iff_eq]
  have hsr : info.external_attr >>> 16 = info.external_attr / 2 ^ 16 :=
    Nat.shiftRight_eq_div_pow _ _
  rw [hsr]
  have hu : info.external_attr / 2 ^ 16 < 0x10000 := by
    have h1 : (2 : Nat) ^ 32 = 0x100000000 := by norm_num
    have h2 : (2 : Nat) ^ 16 = 0x10000 := by norm_num
    rw [h2]
    rw [h1] at h32
    omega
  rw [and_typebits_iff _ hu]
  have h3 : (2 : Nat) ^ 12 = 0x1000 := by norm_num
  rw [h3]

/-- Witness for C6 at a concrete symlink entry. -/
theorem C6_is_symlink_iff_witness :
    (symlinkEntry "ln" "/etc").external_attr < 2 ^ 32 ∧
    (is_symlink_in_zip (symlinkEntry "ln" "/etc") = true ↔
      ((symlinkEntry "ln" "/etc").create_system = 3 ∧
        (symlinkEntry "ln" "/etc").external_attr / 2 ^ 16 / 2 ^ 12 =
          0o12)) :=
  ⟨by decide, C6_is_symlink_iff (symlinkEntry "ln" "/etc") (by decide)⟩

/-- Entries copied from a source archive never carry the target path, so
filtering the staged archive for the target path leaves only the new
entry. -/
theorem filter_copied_nil (orig l : List ZipEntry) (t : String) :
    ((l.filter (fun e => e.filename ≠ t)).map
      (fun e => { e with content := zipRead orig e.filename })).filter
      (fun e => e.filename = t) = [] := by
  rw [List.filter_eq_nil_iff]
  intro x hx
  simp only [decide_eq_true_eq]
  exact copied_filename_ne _ _ _ _ hx

/-- After one successful overwrite the target path occurs exactly once, with
the new content. -/
theorem overwrite_result_spec (fs : FS) (zp tp c : String) (now : Nat)
    (entries es : List ZipEntry)
    (hzip : fsLookup fs zp = some (FileData.zip entries))
    (hres : fsLookup (create_file_in_zip fs zp tp c true now false).2 zp =
      some (FileData.zip es)) :
    (es.filter (fun e => e.filename = normalizePath tp)).length = 1 ∧
    ∀ e ∈ es, e.filename = normalizePath tp →
      e.content = utf8Encode c := by
  have hop := create_file_overwrite_eq fs zp tp c now entries hzip
  rw [hop, fsLookup_fsWrite_self] at hres
  simp only [Option.some.injEq, FileData.zip.injEq] at hres
  subst hres
  constructor
  · rw [List.filter_append, filter_copied_nil,
      List.filter_cons_of_pos (by simp [defaultFileEntry]),
      List.filter_nil]
    rfl
  · intro e he hne
    rcases List.mem_append.mp he with h | h
    · exact absurd hne (copied_filename_ne _ _ _ _ h)
    · rcases List.mem_singleton.mp h with rfl
      rfl

/-- Claim C7: performing `create_file_in_zip` at path `P` with content `C`
and `overwrite = true` twice in a row succeeds both times, and the final
archive contains exactly one entry at `P`, holding (the UTF-8 encoding of)
`C`. -/
theorem C7_idempotent_overwrite (fs : FS) (zp tp c : String)
    (now1 now2 : Nat) (entries : List ZipEntry)
    (hzip : fsLookup fs zp = some (FileData.zip entries)) :
    (create_file_in_zip fs zp tp c true now1 false).1 = true ∧
    (create_file_in_zip (create_file_in_zip fs zp tp c true now1 false).2
      zp tp c true now2 false).1 = true ∧
    ∃ es2, fsLookup (create_file_in_zip
        (create_file_in_zip fs zp tp c true now1 false).2 zp tp c true
        now2 false).2 zp = some (FileData.zip es2) ∧
      (es2.filter (fun e => e.filename = normalizePath tp)).length = 1 ∧
      ∀ e ∈ es2, e.filename = normalizePath tp →
        e.content = utf8Encode c := by
  have hop1 := create_file_overwrite_eq fs zp tp c now1 entries hzip
  have hl1 : fsLookup (create_file_in_zip fs zp tp c true now1 false).2 zp
      = some (FileData.zip
        (((entries.filter (fun e => e.filename ≠ normalizePath tp)).map
          (fun e => { e with content := zipRead entries e.filename })) ++
          [defaultFileEntry (normalizePath tp) c now1])) := by
    rw [hop1]
    exact fsLookup_fsWrite_self _ _ _
  have hop2 := create_file_overwrite_eq
    (create_file_in_zip fs zp tp c true now1 false).2 zp tp c now2 _ hl1
  obtain ⟨es2, hl2⟩ : ∃ es2, fsLookup (create_file_in_zip
      (create_file_in_zip fs zp tp c true now1 false).2 zp tp c true now2
      false).2 zp = some (FileData.zip es2) :=
    ⟨_, by rw [hop2]; exact fsLookup_fsWrite_self _ _ _⟩
  have hspec := overwrite_result_spec _ zp tp c now2 _ es2 hl1 hl2
  exact ⟨by rw [hop1], by rw [hop2], es2, hl2, hspec.1, hspec.2⟩

/-- Witness for C7 at a concrete archive, overwriting an existing entry
twice. -/
theorem C7_idempotent_overwrite_witness :
    (create_file_in_zip fsSample "a.zip" "docs/readme.txt" "bye" true 1
      false).1 = true ∧
    (create_file_in_zip (create_file_in_zip fsSample "a.zip"
      "docs/readme.txt" "bye" true 1 false).2 "a.zip" "docs/readme.txt"
      "bye" true 2 false).1 = true ∧
    ∃ es2, fsLookup (create_file_in_zip (create_file_in_zip fsSample
        "a.zip" "docs/readme.txt" "bye" true 1 false).2 "a.zip"
        "docs/readme.txt" "bye" true 2 false).2 "a.zip" =
      some (FileData.zip es2) ∧
      (es2.filter (fun e => e.filename =
        normalizePath "docs/readme.txt")).length = 1 ∧
      ∀ e ∈ es2, e.filename = normalizePath "docs/readme.txt" →
        e.content = utf8Encode "bye" :=
  C7_idempotent_overwrite fsSample "a.zip" "docs/readme.txt" "bye" 1 2
    [entReadme, entNotes] (by decide)

/-- Binary sample entry whose single byte 0xFF is not valid UTF-8. -/
def entBinary : ZipEntry :=
  { filename := "blob.bin", create_system := 3
  , external_attr := 0o100644 * 65536, compress_type := 8, date_time := 0
  , content := [0xFF] }

/-- Sample file system holding the binary entry. -/
def fsBinary : FS := [("b.zip", FileData.zip [entBinary])]

/-- Claim C8 is contradicted by the code: `view_file_in_zip` decodes with
`errors='replace'` (src/app.py line 143), so content that is not valid
UTF-8 never raises; it is displayed and returned with U+FFFD substitutions,
and the function's own `except UnicodeDecodeError` handler at lines 152-153
("contains binary data and cannot be displayed as text", returning `None`)
is unreachable.  This theorem evaluates the model at the failing input: the
entry's content fails strict text decoding, yet the view returns (and hence
displays) a decoded string instead of failing. -/
theorem C8_binary_is_displayed :
    utf8DecodeStrict entBinary.content = none ∧
    view_file_in_zip fsBinary "b.zip" "blob.bin" =
      some (String.mk [Char.ofNat 0xFFFD]) := by
  constructor
  · simp [utf8DecodeStrict, entBinary, utf8DecodeLoop, utf8Step]
  · simp [view_file_in_zip, fsBinary, fsLookup, entBinary, zipRead,
      utf8DecodeReplace, utf8DecodeLoop, utf8Step]

/-- The copied form of an entry holds whatever a read-by-name of its own
path from the source archive yields. -/
theorem copied_entry_content (orig l : List ZipEntry) (t : String)
    (x : ZipEntry)
    (hx : x ∈ (l.filter (fun e => e.filename ≠ t)).map
      (fun e => { e with content := zipRead orig e.filename })) :
    x.content = zipRead orig x.filename := by
  rcases List.mem_map.mp hx with ⟨a, ha, rfl⟩
  rfl

/-- First duplicate entry at path `q` (content `[1]`). -/
def entQ1 : ZipEntry :=
  { filename := "q", create_system := 3, external_attr := 0
  , compress_type := 8, date_time := 1, content := [1] }

/-- Second duplicate entry at path `q` (content `[2]`). -/
def entQ2 : ZipEntry :=
  { filename := "q", create_system := 3, external_attr := 0
  , compress_type := 8, date_time := 2, content := [2] }

/-- Archive with two entries at the same path `q`. -/
def fsDup : FS := [("d.zip", FileData.zip [entQ1, entQ2])]

/-- Counterexample to claim C9 as stated: on an archive with duplicate
entries at `q`, inserting at a fresh path `p` rewrites both copies of `q`
with the content of the LAST occurrence (`[2]`), not the first
occurrence's content (`[1]`), because Python's `NameToInfo` map is built by
dictionary assignment in central-directory order, so `read` by name returns
the last entry. -/
theorem C9_counterexample :
    entQ1.content = [1] ∧
    fsLookup (create_file_in_zip fsDup "d.zip" "p" "x" false 0 false).2
        "d.zip" =
      some (FileData.zip
        [{ entQ1 with content := [2] }, { entQ2 with content := [2] },
          defaultFileEntry "p" "x" 0]) ∧
    ([2] : List Nat) ≠ [1] := by
  refine ⟨rfl, ?_, by decide⟩
  decide

/-- Claim C9 as amended: after a successful `create_file_in_zip` or
`create_symlink_in_zip`, every copied entry (path different from the
target) carries the content of the LAST occurrence of its path in the
source archive. -/
theorem C9_last_occurrence (fs fs1 fs2 : FS) (zp tpf tps cf st : String)
    (owf ows : Bool) (now : Nat) (entries es1 es2 : List ZipEntry)
    (hzip : fsLookup fs zp = some (FileData.zip entries))
    (hf : create_file_in_zip fs zp tpf cf owf now false = (true, fs1))
    (hres1 : fsLookup fs1 zp = some (FileData.zip es1))
    (hs : create_symlink_in_zip fs zp tps st ows false = (true, fs2))
    (hres2 : fsLookup fs2 zp = some (FileData.zip es2)) :
    (∀ e ∈ es1, e.filename ≠ normalizePath tpf → ∀ eLast,
      (entries.filter (fun a => a.filename = e.filename)).getLast? =
        some eLast → e.content = eLast.content) ∧
    (∀ e ∈ es2, e.filename ≠ normalizePath tps → ∀ eLast,
      (entries.filter (fun a => a.filename = e.filename)).getLast? =
        some eLast → e.content = eLast.content) := by
  constructor
  · obtain ⟨-, entries1, copied1, hl1, hc1, rfl⟩ := create_file_success hf
    rw [hzip] at hl1
    simp only [Option.some.injEq, FileData.zip.injEq] at hl1
    subst hl1
    rw [fsLookup_fsWrite_self] at hres1
    simp only [Option.some.injEq, FileData.zip.injEq] at hres1
    subst hres1
    intro e he hne eLast hLast
    rw [copyItems_some _ _ _ _ _ hc1] at he
    rcases List.mem_append.mp he with h | h
    · have hce := copied_entry_content entries entries (normalizePath tpf)
        _ h
      rw [hce, zipRead, hLast]
    · rcases List.mem_singleton.mp h with rfl
      exact absurd rfl hne
  · obtain ⟨-, entries2, copied2, hl2, hc2, rfl⟩ := create_symlink_success hs
    rw [hzip] at hl2
    simp only [Option.some.injEq, FileData.zip.injEq] at hl2
    subst hl2
    rw [fsLookup_fsWrite_self] at hres2
    simp only [Option.some.injEq, FileData.zip.injEq] at hres2
    subst hres2
    intro e he hne eLast hLast
    rw [copyItems_some _ _ _ _ _ hc2] at he
    rcases List.mem_append.mp he with h | h
    · have hce := copied_entry_content entries entries (normalizePath tps)
        _ h
      rw [hce, zipRead, hLast]
    · rcases List.mem_singleton.mp h with rfl
      exact absurd rfl hne

/-- Witness for the amended C9 at the duplicate-path archive: the first
copy of `q` ends up with the last occurrence's content. -/
theorem C9_last_occurrence_witness :
    ({ entQ1 with content := [2] } : ZipEntry).content = entQ2.content := by
  have h := C9_last_occurrence fsDup
    (create_file_in_zip fsDup "d.zip" "p" "x" false 0 false).2
    (create_symlink_in_zip fsDup "d.zip" "s" "/t" false false).2
    "d.zip" "p" "s" "x" "/t" false false 0
    [entQ1, entQ2]
    [{ entQ1 with content := [2] }, { entQ2 with content := [2] },
      defaultFileEntry "p" "x" 0]
    [{ entQ1 with content := [2] }, { entQ2 with content := [2] },
      symlinkEntry "s" "/t"]
    (by decide) (by decide) (by decide) (by decide) (by decide)
  exact h.1 _ (by decide) (by decide) entQ2 (by decide)

/-- Claim C10: the resulting archive lists the source entries whose path
differs from the target, in their original relative order, followed by the
new entry as the last entry. -/
theorem C10_order (fs fs1 fs2 : FS) (zp tpf tps cf st : String)
    (owf ows : Bool) (now : Nat) (entries es1 es2 : List ZipEntry)
    (hzip : fsLookup fs zp = some (FileData.zip entries))
    (hf : create_file_in_zip fs zp tpf cf owf now false = (true, fs1))
    (hres1 : fsLookup fs1 zp = some (FileData.zip es1))
    (hs : create_symlink_in_zip fs zp tps st ows false = (true, fs2))
    (hres2 : fsLookup fs2 zp = some (FileData.zip es2)) :
    es1.map (fun e => e.filename) =
      ((entries.map (fun e => e.filename)).filter
        (fun s => s ≠ normalizePath tpf)) ++ [normalizePath tpf] ∧
    es2.map (fun e => e.filename) =
      ((entries.map (fun e => e.filename)).filter
        (fun s => s ≠ normalizePath tps)) ++ [normalizePath tps] := by
  constructor
  · obtain ⟨-, entries1, copied1, hl1, hc1, rfl⟩ := create_file_success hf
    rw [hzip] at hl1
    simp only [Option.some.injEq, FileData.zip.injEq] at hl1
    subst hl1
    rw [fsLookup_fsWrite_self] at hres1
    simp only [Option.some.injEq, FileData.zip.injEq] at hres1
    subst hres1
    rw [copyItems_some _ _ _ _ _ hc1, List.map_append, copied_map_filename]
    rfl
  · obtain ⟨-, entries2, copied2, hl2, hc2, rfl⟩ := create_symlink_success hs
    rw [hzip] at hl2
    simp only [Option.some.injEq, FileData.zip.injEq] at hl2
    subst hl2
    rw [fsLookup_fsWrite_self] at hres2
    simp only [Option.some.injEq, FileData.zip.injEq] at hres2
    subst hres2
    rw [copyItems_some _ _ _ _ _ hc2, List.map_append, copied_map_filename]
    rfl

/-- Witness for C10 at a concrete archive (both operations at a path that
already exists, with overwrite, so the replacement moves to the end). -/
theorem C10_order_witness :
    (([entNotes, defaultFileEntry "docs/readme.txt" "x" 0] :
        List ZipEntry).map (fun e => e.filename) =
      (([entReadme, entNotes].map (fun e => e.filename)).filter
        (fun s => s ≠ normalizePath "docs/readme.txt")) ++
        [normalizePath "docs/readme.txt"]) ∧
    (([entNotes, symlinkEntry "docs/readme.txt" "/t"] :
        List ZipEntry).map (fun e => e.filename) =
      (([entReadme, entNotes].map (fun e => e.filename)).filter
        (fun s => s ≠ normalizePath "docs/readme.txt")) ++
        [normalizePath "docs/readme.txt"]) := by
  have h := C10_order fsSample
    (create_file_in_zip fsSample "a.zip" "docs/readme.txt" "x" true 0
      false).2
    (create_symlink_in_zip fsSample "a.zip" "docs/readme.txt" "/t" true
      false).2
    "a.zip" "docs/readme.txt" "docs/readme.txt" "x" "/t" true true 0
    [entReadme, entNotes]
    [entNotes, defaultFileEntry "docs/readme.txt" "x" 0]
    [entNotes, symlinkEntry "docs/readme.txt" "/t"]
    (by decide) (by decide) (by decide) (by decide) (by decide)
  exact ⟨h.1, h.2⟩
